import Mathlib

/-!
Verification of the vehicle-listing scraper (riyasewana_scraper.py,
db_manager.py, utils.py, config.py) via a shallow embedding.

String handling mirrors Python semantics on the relevant operations:
`str.strip`, `str.lower`, substring containment (`pat in s`), and
`urllib.parse.urljoin` (CPython implementation, translated below).
Python dicts are modelled as insertion-ordered association lists
(`Dict`), so "key absent" and "key present with empty value" are
distinguished exactly as in the source.
-/

set_option autoImplicit false

namespace VehicleScraper

/-! ## Python string primitives -/

/-- Python whitespace characters recognised by `str.strip()` (ASCII range). -/
def pyWs (c : Char) : Bool :=
  c == ' ' || c == '\t' || c == '\n' || c == '\r' || c == '\x0b' || c == '\x0c'

def dropWsLead : List Char → List Char
  | [] => []
  | c :: cs => if pyWs c then dropWsLead cs else c :: cs

/-- Model of Python `str.strip()` (whitespace on both ends). -/
def pyStrip (s : String) : String :=
  String.mk ((dropWsLead ((dropWsLead s.data.reverse).reverse)))

/-- ASCII lower-casing of one character, as `str.lower()` acts on ASCII. -/
def lcChar (c : Char) : Char :=
  if 'A' ≤ c && c ≤ 'Z' then Char.ofNat (c.toNat + 32) else c

/-- Model of Python `str.lower()` (inputs here are ASCII). -/
def strLower (s : String) : String :=
  String.mk (s.data.map lcChar)

def chStarts : List Char → List Char → Bool
  | [], _ => true
  | _ :: _, [] => false
  | a :: as, b :: bs => a == b && chStarts as bs

def chHasSub (pat : List Char) : List Char → Bool
  | [] => pat.isEmpty
  | b :: bs => chStarts pat (b :: bs) || chHasSub pat bs

/-- Model of Python substring test `pat in s`. -/
def pyIn (pat s : String) : Bool :=
  chHasSub pat.data s.data

/-! ## Python dict model

An insertion-ordered association list.  `dictInsert` is Python's
`d[k] = v`: update in place when the key exists, append otherwise.
-/

abbrev Dict := List (String × String)

def dictGet : Dict → String → Option String
  | [], _ => none
  | (k', v) :: rest, k => if k' = k then some v else dictGet rest k

def dictInsert : Dict → String → String → Dict
  | [], k, v => [(k, v)]
  | (k', v') :: rest, k, v =>
      if k' = k then (k, v) :: rest else (k', v') :: dictInsert rest k v

/-- Python `{**a, **b}`: entries of `b` written over `a` in order. -/
def dictMerge (a b : Dict) : Dict :=
  b.foldl (fun d p => dictInsert d p.1 p.2) a

def dictKeys (d : Dict) : List String :=
  d.map Prod.fst

@[simp] theorem dictGet_insert_self (d : Dict) (k v : String) :
    dictGet (dictInsert d k v) k = some v := by
  induction d with
  | nil => simp [dictInsert, dictGet]
  | cons p rest ih =>
      obtain ⟨k', v'⟩ := p
      by_cases h : k' = k <;> simp [dictInsert, dictGet, h, ih]

@[simp] theorem dictKeys_nil : dictKeys [] = [] := rfl

@[simp] theorem dictKeys_cons (k v : String) (d : Dict) :
    dictKeys ((k, v) :: d) = k :: dictKeys d := rfl

theorem dictGet_insert_ne (d : Dict) (k k' v : String) (h : k' ≠ k) :
    dictGet (dictInsert d k' v) k = dictGet d k := by
  induction d with
  | nil => simp [dictInsert, dictGet, h]
  | cons p rest ih =>
      obtain ⟨k₀, v₀⟩ := p
      by_cases h0 : k₀ = k'
      · subst h0; simp [dictInsert, dictGet, h]
      · by_cases h1 : k₀ = k
        · subst h1; simp [dictInsert, dictGet, h0]
        · simp [dictInsert, dictGet, h0, h1, ih]

theorem dictKeys_insert_mem (d : Dict) (k v : String) (h : k ∈ dictKeys d) :
    dictKeys (dictInsert d k v) = dictKeys d := by
  induction d with
  | nil => simp at h
  | cons p rest ih =>
      obtain ⟨k₀, v₀⟩ := p
      by_cases h0 : k₀ = k
      · simp [dictInsert, h0]
      · have hk : k ∈ dictKeys rest := by
          rcases List.mem_cons.mp (by simpa using h) with h1 | h1
          · exact absurd h1.symm h0
          · exact h1
        simp [dictInsert, h0, ih hk]

theorem dictGet_eq_none_of_not_mem (d : Dict) (k : String)
    (h : k ∉ dictKeys d) : dictGet d k = none := by
  induction d with
  | nil => simp [dictGet]
  | cons p rest ih =>
      obtain ⟨k₀, v₀⟩ := p
      simp at h
      push_neg at h
      have h0 : ¬k₀ = k := fun hh => h.1 hh.symm
      simp [dictGet, h0, ih h.2]

/-! ## urllib.parse.urljoin model

Translated from CPython's `urllib/parse.py` (`urlsplit`, `_splitparams`,
`urlparse`, `urlunsplit`, `urlunparse`, `urljoin`).  Control-character
sanitisation is omitted (no such characters occur in scraped hrefs).
-/

def schemeChar (c : Char) : Bool :=
  c.isAlpha || c.isDigit || c == '+' || c == '-' || c == '.'

/-- Split a char list at the first occurrence of `c` (Python `s.split(c, 1)`),
returning `none` when `c` does not occur. -/
def splitAtChar (c : Char) : List Char → Option (List Char × List Char)
  | [] => none
  | x :: xs =>
      if x = c then some ([], xs)
      else match splitAtChar c xs with
           | none => none
           | some (a, b) => some (x :: a, b)

/-- Split a char list at the last occurrence of `c`, returning the pieces
before and after it. -/
def splitAtLastChar (c : Char) : List Char → Option (List Char × List Char)
  | [] => none
  | x :: xs =>
      match splitAtLastChar c xs with
      | some (a, b) => some (x :: a, b)
      | none => if x = c then some ([], xs) else none

/-- CPython `_splitnetloc`: netloc runs until the first of `/`, `?`, `#`. -/
def splitNetloc : List Char → List Char × List Char
  | [] => ([], [])
  | c :: cs =>
      if c = '/' ∨ c = '?' ∨ c = '#' then ([], c :: cs)
      else
        let r := splitNetloc cs
        (c :: r.1, r.2)

structure UrlParts where
  scheme : String
  netloc : String
  path : String
  params : String
  query : String
  fragment : String
deriving DecidableEq

/-- CPython schemes that allow relative resolution (`uses_relative`). -/
def usesRelative : List String :=
  ["", "ftp", "http", "gopher", "nntp", "imap", "wais", "file", "https",
   "shttp", "mms", "prospero", "rtsp", "rtspu", "sftp", "svn", "svn+ssh",
   "ws", "wss"]

/-- CPython schemes that use a network location (`uses_netloc`). -/
def usesNetloc : List String :=
  ["", "ftp", "http", "gopher", "nntp", "telnet", "imap", "wais", "file",
   "mms", "https", "shttp", "snews", "prospero", "rtsp", "rtspu", "rsync",
   "svn", "svn+ssh", "sftp", "nfs", "git", "git+ssh", "ws", "wss",
   "itms-services"]

/-- CPython schemes whose paths may carry `;`-parameters (`uses_params`). -/
def usesParams : List String :=
  ["", "ftp", "hdl", "prospero", "http", "imap", "https", "shttp", "rtsp",
   "rtspu", "sip", "sips", "mms", "sftp", "tel"]

/-- CPython `urlsplit` (scheme, netloc, path, query, fragment); the `scheme0`
argument is the caller-supplied default scheme, always with
`allow_fragments=True` as in `urljoin`. -/
def pyUrlsplit (url : String) (scheme0 : String) : UrlParts :=
  let u := url.data
  let sr : String × List Char :=
    match splitAtChar ':' u with
    | some (before, after) =>
        if (match before with | c :: _ => c.isAlpha | [] => false)
            && before.all schemeChar then
          (String.mk (before.map lcChar), after)
        else (scheme0, u)
    | none => (scheme0, u)
  let nr : List Char × List Char :=
    match sr.2 with
    | '/' :: '/' :: rest => splitNetloc rest
    | rest => ([], rest)
  let fr : List Char × List Char :=
    match splitAtChar '#' nr.2 with
    | some (a, b) => (a, b)
    | none => (nr.2, [])
  let pq : List Char × List Char :=
    match splitAtChar '?' fr.1 with
    | some (a, b) => (a, b)
    | none => (fr.1, [])
  ⟨sr.1, String.mk nr.1, String.mk pq.1, "", String.mk pq.2, String.mk fr.2⟩

/-- CPython `_splitparams`, applied to the path component. -/
def pySplitParams (p : List Char) : List Char × List Char :=
  match splitAtLastChar '/' p with
  | some (before, after) =>
      (match splitAtChar ';' after with
       | some (a, b) => (before ++ '/' :: a, b)
       | none => (p, []))
  | none =>
      (match splitAtChar ';' p with
       | some (a, b) => (a, b)
       | none => (p, []))

/-- CPython `urlparse`: `urlsplit` plus the `;`-parameter split on the path. -/
def pyUrlparse (url : String) (scheme0 : String) : UrlParts :=
  let s := pyUrlsplit url scheme0
  if s.scheme ∈ usesParams ∧ pyIn ";" s.path then
    let pp := pySplitParams s.path.data
    { s with path := String.mk pp.1, params := String.mk pp.2 }
  else s

def startsSlashSlash (s : List Char) : Bool :=
  match s with
  | '/' :: '/' :: _ => true
  | _ => false

def startsSlash (s : List Char) : Bool :=
  match s with
  | '/' :: _ => true
  | _ => false

/-- CPython `urlunsplit` (3.11: the `//` marker is also emitted for a
`uses_netloc` scheme with empty netloc unless the path already starts `//`). -/
def pyUrlunsplit (scheme netloc path query fragment : String) : String :=
  let url := path
  let url :=
    if netloc ≠ "" ∨ (scheme ≠ "" ∧ scheme ∈ usesNetloc ∧ ¬startsSlashSlash url.data) then
      let u2 := if url ≠ "" ∧ ¬startsSlash url.data then "/" ++ url else url
      "//" ++ netloc ++ u2
    else url
  let url := if scheme ≠ "" then scheme ++ ":" ++ url else url
  let url := if query ≠ "" then url ++ "?" ++ query else url
  if fragment ≠ "" then url ++ "#" ++ fragment else url

/-- CPython `urlunparse`. -/
def pyUrlunparse (scheme netloc path params query fragment : String) : String :=
  let p := if params ≠ "" then path ++ ";" ++ params else path
  pyUrlunsplit scheme netloc p query fragment

/-- Python `s.split('/')`. -/
def splitSlashCh : List Char → List (List Char)
  | [] => [[]]
  | c :: cs =>
      let r := splitSlashCh cs
      if c = '/' then [] :: r
      else match r with
           | h :: t => (c :: h) :: t
           | [] => [[c]]

def pySplitSlash (s : String) : List String :=
  (splitSlashCh s.data).map String.mk

/-- CPython's in-place `segments[1:-1] = filter(None, segments[1:-1])`:
drop empty segments except the first and last. -/
def midKeepLast : List String → List String
  | [] => []
  | [b] => [b]
  | b :: rest => if b = "" then midKeepLast rest else b :: midKeepLast rest

def midFilter : List String → List String
  | [] => []
  | [a] => [a]
  | a :: rest => a :: midKeepLast rest

/-- The dot-segment resolution loop of CPython `urljoin` (`..` pops, `.` is
skipped, anything else is appended). -/
def resolveSegs (acc : List String) : List String → List String
  | [] => acc
  | s :: rest =>
      if s = ".." then resolveSegs acc.dropLast rest
      else if s = "." then resolveSegs acc rest
      else resolveSegs (acc ++ [s]) rest

/-- CPython `urljoin(base, url)`. -/
def urljoin (base url : String) : String :=
  if base = "" then url
  else if url = "" then base
  else
    let b := pyUrlparse base ""
    let r := pyUrlparse url b.scheme
    if r.scheme ≠ b.scheme ∨ r.scheme ∉ usesRelative then url
    else
      if r.scheme ∈ usesNetloc ∧ r.netloc ≠ "" then
        pyUrlunparse r.scheme r.netloc r.path r.params r.query r.fragment
      else
        let netloc := if r.scheme ∈ usesNetloc then b.netloc else r.netloc
        if r.path = "" ∧ r.params = "" then
          let q := if r.query = "" then b.query else r.query
          pyUrlunparse r.scheme netloc b.path b.params q r.fragment
        else
          let baseParts0 := pySplitSlash b.path
          let baseParts :=
            if baseParts0.getLast?.getD "" ≠ "" then baseParts0.dropLast
            else baseParts0
          let segments :=
            if startsSlash r.path.data then pySplitSlash r.path
            else midFilter (baseParts ++ pySplitSlash r.path)
          let resolved := resolveSegs [] segments
          let lastSeg := segments.getLast?.getD ""
          let resolved :=
            if lastSeg = "." ∨ lastSeg = ".." then resolved ++ [""]
            else resolved
          let joined := String.intercalate "/" resolved
          let finalPath := if joined = "" then "/" else joined
          pyUrlunparse r.scheme netloc finalPath r.params r.query r.fragment

/-- Model of `utils.safe_urljoin` (a direct wrapper of `urljoin`). -/
def safe_urljoin (base url : String) : String :=
  urljoin base url

/-! ## Configuration (config.py) -/

def RIYASWANA_BASE_URL : String := "https://riyasewana.com"

/-! ## Markup fragment model

`_extract_listing_details` queries a listing item (`li`) for: the anchor
inside its `h2` (text and `href`), an `img` (its `src`), a date `div`
(its text), and the list of `div.boxintxt` text blocks.  An `li` fragment
is modelled by exactly those query results; `none` means the element (or
attribute) is absent from the markup.
-/

structure Anchor where
  text : String
  href : Option String
deriving DecidableEq

structure ImgTag where
  src : Option String
deriving DecidableEq

structure LiTag where
  anchor : Option Anchor
  img : Option ImgTag
  dateDiv : Option String
  boxTexts : List String
deriving DecidableEq

/-- `a_tag.text.strip() if a_tag else ""`. -/
def rawTitle (li : LiTag) : String :=
  match li.anchor with
  | some a => pyStrip a.text
  | none => ""

/-- `a_tag['href'] if a_tag and 'href' in a_tag.attrs else ""`. -/
def rawHref (li : LiTag) : String :=
  match li.anchor with
  | some a => a.href.getD ""
  | none => ""

/-- `img_tag['src'].strip() if img_tag and 'src' in img_tag.attrs else ""`. -/
def rawSrc (li : LiTag) : String :=
  match li.img with
  | some im =>
      match im.src with
      | some s => pyStrip s
      | none => ""
  | none => ""

/-- `date_div.text.strip() if date_div else ""`. -/
def rawDate (li : LiTag) : String :=
  match li.dateDiv with
  | some t => pyStrip t
  | none => ""

/-! ## Record extractor (`RiyasewanaScraper._extract_listing_details`) -/

/-- The classification loop over the `div.boxintxt` blocks: `km` ⇒ mileage,
`rs`/`negotiable` ⇒ price, any other non-empty text not equal to the current
price/mileage/date values ⇒ location.  Each branch assigns (overwrites) the
corresponding key. -/
def boxLoop (d : Dict) : List String → Dict
  | [] => d
  | raw :: rest =>
      let txt := pyStrip raw
      let low := strLower txt
      let d' :=
        if pyIn "km" low then dictInsert d "mileage" txt
        else if pyIn "rs" low || pyIn "negotiable" low then
          dictInsert d "overview_price" txt
        else if txt ≠ "" ∧ txt ≠ (dictGet d "overview_price").getD "" ∧
                txt ≠ (dictGet d "mileage").getD "" ∧
                txt ≠ (dictGet d "date").getD "" then
          dictInsert d "location" txt
        else d
      boxLoop d' rest

/-- Model of `_extract_listing_details`: builds the overview record.  The
guarded element accesses in the source cannot raise, so the function is
total; `post_url` is joined against the configured base URL and
`image_url` against the literal base `"https:"`, exactly as in the code. -/
def extract_listing_details (base : String) (li : LiTag) : Dict :=
  let d := dictInsert [] "title" (rawTitle li)
  let d := dictInsert d "post_url" (safe_urljoin base (rawHref li))
  let d := dictInsert d "image_url" (safe_urljoin "https:" (rawSrc li))
  let d := dictInsert d "date" (rawDate li)
  let d := dictInsert d "location" ""
  let d := dictInsert d "overview_price" ""
  let d := dictInsert d "mileage" ""
  boxLoop d li.boxTexts

def overviewKeys : List String :=
  ["title", "post_url", "image_url", "date", "location", "overview_price",
   "mileage"]

/-! ## Record extractor (`RiyasewanaScraper._extract_post_details`)

The detail page is abstracted to the fetch outcome for its table cells:
`Except.error ()` for a fetch/parse failure (`driver.get`/soup raising),
`Except.ok cells` for the document-order list of selected cell texts.
-/

/-- The label/value pairing loop: cell `i` (label, stripped and lowered)
maps to cell `i+1` (value, stripped); a trailing unpaired cell is dropped. -/
def cellsToMap (m : Dict) : List String → Dict
  | label :: value :: rest =>
      cellsToMap (dictInsert m (strLower (pyStrip label)) (pyStrip value)) rest
  | _ => m

/-- Model of `_extract_post_details`.  On a fetch/parse failure the `except`
branch returns the dict as built so far, which is `{}` because the fetch
precedes every assignment — so the detail fields are absent, not empty. -/
def extract_post_details (fetched : Except Unit (List String)) : Dict :=
  match fetched with
  | .error _ => []
  | .ok cells =>
      let m := cellsToMap [] cells
      let d := dictInsert [] "engine_cc" ((dictGet m "engine (cc)").getD "")
      let d := dictInsert d "yom" ((dictGet m "yom").getD "")
      let d := dictInsert d "post_make" ((dictGet m "make").getD "")
      let d := dictInsert d "model" ((dictGet m "model").getD "")
      let d := dictInsert d "detail_price" ((dictGet m "price").getD "")
      let d := dictInsert d "gear" ((dictGet m "gear").getD "")
      dictInsert d "fuel_type" ((dictGet m "fuel type").getD "")

def detailFieldNames : List String :=
  ["engine_cc", "yom", "post_make", "model", "detail_price", "gear",
   "fuel_type"]

/-- The (record field, page label) pairs projected by
`_extract_post_details` from the label→value map. -/
def detailFieldPairs : List (String × String) :=
  [("engine_cc", "engine (cc)"), ("yom", "yom"), ("post_make", "make"),
   ("model", "model"), ("detail_price", "price"), ("gear", "gear"),
   ("fuel_type", "fuel type")]

/-! ## Storage layer (`db_manager.py`) -/

/-- One persisted row, in the column order of the INSERT statement:
date, make, type, title, location, mileage, overview_price, detail_price,
engine_cc, yom, post_make, model, gear, fuel_type, post_url, image_url. -/
abbrev DbRow := List String

/-- The tuple built from a listing dict for `executemany` (missing keys
default to `""` via `data.get(k, '')`). -/
def toRowTuple (d : Dict) : DbRow :=
  let g := fun k => (dictGet d k).getD ""
  [g "date", g "make", g "type", g "title", g "location", g "mileage",
   g "overview_price", g "detail_price", g "engine_cc", g "yom",
   g "post_make", g "model", g "gear", g "fuel_type", g "post_url",
   g "image_url"]

/-- The `post_url` column of a row (index 14). -/
def rowUrl (r : DbRow) : String :=
  (r.get? 14).getD ""

/-- `INSERT OR IGNORE` over the UNIQUE `post_url` column: rows are inserted
in order, a row whose `post_url` already occurs is ignored; the count is
the number of rows actually inserted (`cursor.rowcount`). -/
def insertRows : List DbRow → List DbRow → List DbRow × Nat
  | rows, [] => (rows, 0)
  | rows, t :: ts =>
      if rows.any (fun r => rowUrl r = rowUrl t) then insertRows rows ts
      else
        let r := insertRows (rows ++ [t]) ts
        (r.1, r.2 + 1)

/-- Model of `DatabaseManager.insert_listings_batch`.  `storageFails`
abstracts a `sqlite3.Error` raised inside the transaction: the handler
rolls the whole batch back and the function returns the initial count 0. -/
def insert_listings_batch (db : List DbRow) (storageFails : Bool)
    (listings : List Dict) : List DbRow × Nat :=
  match listings with
  | [] => (db, 0)
  | _ =>
      if storageFails then (db, 0)
      else insertRows db (listings.map toRowTuple)

/-- Model of `DatabaseManager.get_all_post_urls`.  The query outcome is a
list of `post_url` column values (`none` = SQL NULL); rows that are NULL
or empty are filtered out, and a `sqlite3.Error` yields the empty set.
The Python set is modelled by the list of kept values (only membership is
ever used). -/
def get_all_post_urls (q : Except Unit (List (Option String))) : List String :=
  match q with
  | .error _ => []
  | .ok rows =>
      rows.filterMap (fun r =>
        match r with
        | some s => if s = "" then none else some s
        | none => none)

/-! ## Crawl orchestration (`RiyasewanaScraper.scrape_site`)

The remote site and browser are abstracted to two functions: the fetch of
a listing page for `(vehicle_type, make, page)` — `Except.error ()` for a
page-load failure, `Except.ok none` for a page without the results `ul`,
`Except.ok (some lis)` for a results list — and the fetch of a detail
page by URL (the input of `_extract_post_details`).

The observable actions of a run are recorded as a trace of events:
listing-page fetch attempts, detail-page fetch attempts, and
`insert_listings_batch` calls with their argument.  The `while True`
pagination loop is driven by a fuel parameter; every property proved
below holds for every fuel value, so nothing depends on the cutoff.
-/

structure SiteData where
  listingPage : String → String → Nat → Except Unit (Option (List LiTag))
  postPage : String → Except Unit (List String)

inductive Ev where
  | fetchPage (vehicleType make : String) (page : Nat)
  | fetchPost (url : String)
  | insertBatch (batch : List Dict)
deriving DecidableEq

structure CrawlState where
  seen : List String
  allNew : List Dict
  batch : List Dict
  trace : List Ev
deriving DecidableEq

def initState (seen0 : List String) : CrawlState :=
  ⟨seen0, [], [], []⟩

/-- Record the attempt to load a listing page (`driver.get(url)`). -/
def CrawlState.logPage (st : CrawlState) (vt mk : String) (p : Nat) : CrawlState :=
  { st with trace := st.trace ++ [Ev.fetchPage vt mk p] }

/-- The fused record `{**overview, **details, 'make': make, 'type': type}`. -/
def mkFull (site : SiteData) (mk vt : String) (ov : Dict) (u : String) : Dict :=
  dictInsert
    (dictInsert (dictMerge ov (extract_post_details (site.postPage u))) "make" mk)
    "type" vt

/-- Mark seen, fetch the detail page, and append the fused record to the
result accumulator and the pending batch (lines 101–116 of the source). -/
def addListing (st : CrawlState) (u : String) (full : Dict) : CrawlState :=
  ⟨u :: st.seen, st.allNew ++ [full], st.batch ++ [full],
   st.trace ++ [Ev.fetchPost u]⟩

/-- Flush the pending batch to storage and clear it (lines 119–121). -/
def flushState (st : CrawlState) : CrawlState :=
  ⟨st.seen, st.allNew, [], st.trace ++ [Ev.insertBatch st.batch]⟩

/-- Processing of one `li` item (lines 92–124): extract the overview; skip
when `post_url` is falsy or already seen; otherwise record the listing and
flush when the batch has reached the configured size.  Returns the state
and the contribution to `new_listings_on_page`. -/
def processLi (site : SiteData) (B : Nat) (mk vt : String) (st : CrawlState)
    (li : LiTag) : CrawlState × Nat :=
  match dictGet (extract_listing_details RIYASWANA_BASE_URL li) "post_url" with
  | none => (st, 0)
  | some u =>
      if u = "" ∨ u ∈ st.seen then (st, 0)
      else
        let full := mkFull site mk vt (extract_listing_details RIYASWANA_BASE_URL li) u
        let st1 := addListing st u full
        if B ≤ st1.batch.length then (flushState st1, 1) else (st1, 1)

/-- The `for li in li_tags` loop, threading the `new_listings_on_page`
counter. -/
def processItems (site : SiteData) (B : Nat) (mk vt : String) :
    CrawlState → Nat → List LiTag → CrawlState × Nat
  | st, n, [] => (st, n)
  | st, n, li :: rest =>
      let r := processLi site B mk vt st li
      processItems site B mk vt r.1 (n + r.2) rest

/-- The `while True` pagination loop from page `p` (lines 65–131): a load
failure, a missing results `ul`, or an empty item list each end the pair;
a page with zero new unique listings ends the pair only when `page > 1`. -/
def pagesFrom (site : SiteData) (B : Nat) (mk vt : String) :
    Nat → Nat → CrawlState → CrawlState
  | 0, _, st => st
  | fuel + 1, p, st =>
      let st1 := st.logPage vt mk p
      match site.listingPage vt mk p with
      | .error _ => st1
      | .ok none => st1
      | .ok (some []) => st1
      | .ok (some (li :: lis)) =>
          let r := processItems site B mk vt st1 0 (li :: lis)
          if r.2 = 0 ∧ 2 ≤ p then r.1
          else pagesFrom site B mk vt fuel (p + 1) r.1

/-- The pagination loop for one `(make, vehicle_type)` pair, from page 1. -/
def scrapePair (site : SiteData) (B fuel : Nat) (mk vt : String)
    (st : CrawlState) : CrawlState :=
  pagesFrom site B mk vt fuel 1 st

/-- The `for make in makes: for type in types:` double loop. -/
def crawlLoop (site : SiteData) (B fuel : Nat) (makes types : List String)
    (st : CrawlState) : CrawlState :=
  makes.foldl (fun s mk => types.foldl (fun s vt => scrapePair site B fuel mk vt s) s) st

/-- Model of `scrape_site`: run all pairs, then flush any remaining partial
batch (lines 134–136; the final flush does not clear the buffer, the run
simply ends). -/
def scrape_site (site : SiteData) (B fuel : Nat) (makes types : List String)
    (seen0 : List String) : CrawlState :=
  let stN := crawlLoop site B fuel makes types (initState seen0)
  if stN.batch.isEmpty then stN
  else { stN with trace := stN.trace ++ [Ev.insertBatch stN.batch] }

/-- Number of `insertBatch` events in a trace. -/
def flushCount : List Ev → Nat
  | [] => 0
  | Ev.insertBatch _ :: rest => flushCount rest + 1
  | _ :: rest => flushCount rest

/-- Number of detail-page fetch attempts for a given URL in a trace. -/
def countFP (u : String) : List Ev → Nat
  | [] => 0
  | Ev.fetchPost v :: rest => (if v = u then 1 else 0) + countFP u rest
  | _ :: rest => countFP u rest

/-! ## Lemma kit -/

theorem flushCount_append (s t : List Ev) :
    flushCount (s ++ t) = flushCount s + flushCount t := by
  induction s with
  | nil => simp [flushCount]
  | cons e rest ih =>
      cases e
      all_goals simp [flushCount, ih]
      all_goals omega

theorem countFP_append (u : String) (s t : List Ev) :
    countFP u (s ++ t) = countFP u s + countFP u t := by
  induction s with
  | nil => simp [countFP]
  | cons e rest ih =>
      cases e
      all_goals simp [countFP, ih]
      all_goals omega

/-- Summary of the possible outcomes of `processLi`: either the item is
skipped with the state untouched, or a fresh URL is recorded, with or
without a batch flush. -/
theorem processLi_none (site : SiteData) (B : Nat) (mk vt : String)
    (st : CrawlState) (li : LiTag)
    (hm : dictGet (extract_listing_details RIYASWANA_BASE_URL li) "post_url" = none) :
    processLi site B mk vt st li = (st, 0) := by
  unfold processLi
  rw [hm]

theorem processLi_skip (site : SiteData) (B : Nat) (mk vt : String)
    (st : CrawlState) (li : LiTag) (u : String)
    (hm : dictGet (extract_listing_details RIYASWANA_BASE_URL li) "post_url" = some u)
    (hs : u = "" ∨ u ∈ st.seen) :
    processLi site B mk vt st li = (st, 0) := by
  unfold processLi
  rw [hm]
  exact if_pos hs

theorem processLi_new (site : SiteData) (B : Nat) (mk vt : String)
    (st : CrawlState) (li : LiTag) (u : String)
    (hm : dictGet (extract_listing_details RIYASWANA_BASE_URL li) "post_url" = some u)
    (hne : u ≠ "") (hns : u ∉ st.seen) :
    processLi site B mk vt st li =
      (if B ≤ st.batch.length + 1 then
        (flushState (addListing st u
          (mkFull site mk vt (extract_listing_details RIYASWANA_BASE_URL li) u)), 1)
      else
        (addListing st u
          (mkFull site mk vt (extract_listing_details RIYASWANA_BASE_URL li) u), 1)) := by
  unfold processLi
  rw [hm]
  dsimp only
  have hcond : ¬(u = "" ∨ u ∈ st.seen) := by
    push_neg
    exact ⟨hne, hns⟩
  rw [if_neg hcond]
  have hlen : (addListing st u
      (mkFull site mk vt (extract_listing_details RIYASWANA_BASE_URL li) u)).batch.length
      = st.batch.length + 1 := by
    simp [addListing]
  by_cases hb : B ≤ st.batch.length + 1
  · rw [if_pos hb, if_pos (by rw [hlen]; exact hb)]
  · rw [if_neg hb, if_neg (by rw [hlen]; exact hb)]

/-- Summary of the possible outcomes of `processLi`: either the item is
skipped with the state untouched, or a fresh URL is recorded, with or
without a batch flush. -/
theorem processLi_spec (site : SiteData) (B : Nat) (mk vt : String)
    (st : CrawlState) (li : LiTag) :
    processLi site B mk vt st li = (st, 0) ∨
    ∃ u,
      dictGet (extract_listing_details RIYASWANA_BASE_URL li) "post_url" = some u ∧
      u ≠ "" ∧ u ∉ st.seen ∧
      ((¬ B ≤ st.batch.length + 1 ∧
        processLi site B mk vt st li =
          (addListing st u
            (mkFull site mk vt (extract_listing_details RIYASWANA_BASE_URL li) u), 1)) ∨
       (B ≤ st.batch.length + 1 ∧
        processLi site B mk vt st li =
          (flushState (addListing st u
            (mkFull site mk vt (extract_listing_details RIYASWANA_BASE_URL li) u)), 1))) := by
  cases hm : dictGet (extract_listing_details RIYASWANA_BASE_URL li) "post_url" with
  | none => exact Or.inl (processLi_none site B mk vt st li hm)
  | some u =>
      by_cases hs : u = "" ∨ u ∈ st.seen
      · exact Or.inl (processLi_skip site B mk vt st li u hm hs)
      · push_neg at hs
        refine Or.inr ⟨u, rfl, hs.1, hs.2, ?_⟩
        by_cases hb : B ≤ st.batch.length + 1
        · exact Or.inr ⟨hb, by rw [processLi_new site B mk vt st li u hm hs.1 hs.2, if_pos hb]⟩
        · exact Or.inl ⟨hb, by rw [processLi_new site B mk vt st li u hm hs.1 hs.2, if_neg hb]⟩

/-- State predicates preserved by each `processLi` step are preserved by
the item loop. -/
theorem processItems_preserve (P : CrawlState → Prop) (site : SiteData)
    (B : Nat) (mk vt : String)
    (hstep : ∀ st li, P st → P (processLi site B mk vt st li).1) :
    ∀ (lis : List LiTag) (st : CrawlState) (n : Nat), P st →
      P (processItems site B mk vt st n lis).1 := by
  intro lis
  induction lis with
  | nil => intro st n h; exact h
  | cons li rest ih =>
      intro st n h
      exact ih _ _ (hstep st li h)

/-- State predicates preserved by `processLi` and by logging a page fetch
are preserved by the pagination loop. -/
theorem pagesFrom_preserve (P : CrawlState → Prop) (site : SiteData)
    (B : Nat) (mk vt : String)
    (hstep : ∀ st li, P st → P (processLi site B mk vt st li).1)
    (hlog : ∀ (st : CrawlState) (p : Nat), P st → P (st.logPage vt mk p)) :
    ∀ (fuel p : Nat) (st : CrawlState), P st →
      P (pagesFrom site B mk vt fuel p st) := by
  intro fuel
  induction fuel with
  | zero => intro p st h; exact h
  | succ fuel ih =>
      intro p st h
      unfold pagesFrom
      cases hm : site.listingPage vt mk p with
      | error e => exact hlog st p h
      | ok o =>
          cases o with
          | none => exact hlog st p h
          | some lis =>
              cases lis with
              | nil => exact hlog st p h
              | cons li rest =>
                  dsimp only
                  have h1 := processItems_preserve P site B mk vt hstep
                    (li :: rest) (st.logPage vt mk p) 0 (hlog st p h)
                  by_cases hc :
                    (processItems site B mk vt (st.logPage vt mk p) 0 (li :: rest)).2 = 0 ∧ 2 ≤ p
                  · rw [if_pos hc]; exact h1
                  · rw [if_neg hc]; exact ih _ _ h1

/-- State predicates preserved by the pagination loop are preserved by the
make × type double loop. -/
theorem crawlLoop_preserve (P : CrawlState → Prop) (site : SiteData)
    (B fuel : Nat)
    (hpair : ∀ (mk vt : String) (st : CrawlState), P st →
      P (scrapePair site B fuel mk vt st)) :
    ∀ (makes types : List String) (st : CrawlState), P st →
      P (crawlLoop site B fuel makes types st) := by
  intro makes
  induction makes with
  | nil => intro types st h; exact h
  | cons mk mrest ih =>
      intro types st h
      unfold crawlLoop
      simp only [List.foldl_cons]
      have hinner : ∀ (ts : List String) (s : CrawlState), P s →
          P (ts.foldl (fun s vt => scrapePair site B fuel mk vt s) s) := by
        intro ts
        induction ts with
        | nil => intro s hs; exact hs
        | cons vt trest ih2 =>
            intro s hs
            simp only [List.foldl_cons]
            exact ih2 _ (hpair mk vt s hs)
      exact ih types _ (hinner types st h)

/-! ### Ledger / detail-fetch invariant

`gInv u st` is the number of detail-fetch attempts for `u` so far plus
one "remaining allowance" when `u` is not yet in the ledger.  Every step
of the crawl preserves it exactly, which yields both "a seeded URL is
never detail-fetched" and "no URL is detail-fetched twice".
-/

def gInv (u : String) (st : CrawlState) : Nat :=
  countFP u st.trace + (if u ∈ st.seen then 0 else 1)

theorem gInv_logPage (u : String) (st : CrawlState) (vt mk : String) (p : Nat) :
    gInv u (st.logPage vt mk p) = gInv u st := by
  simp [gInv, CrawlState.logPage, countFP_append, countFP]

theorem gInv_processLi (site : SiteData) (B : Nat) (mk vt : String)
    (st : CrawlState) (li : LiTag) (u : String) :
    gInv u (processLi site B mk vt st li).1 = gInv u st := by
  rcases processLi_spec site B mk vt st li with h | ⟨v, hm, hne, hns, h | h⟩
  · rw [h]
  · rw [h.2]
    by_cases hu : v = u
    · subst hu
      simp [gInv, addListing, countFP_append, countFP, hns]
    · have hmem : (u ∈ v :: st.seen) ↔ (u ∈ st.seen) := by
        constructor
        · intro h1
          rcases List.mem_cons.mp h1 with h2 | h2
          · exact absurd h2.symm hu
          · exact h2
        · intro h1
          exact List.mem_cons_of_mem _ h1
      simp [gInv, addListing, countFP_append, countFP, hu, hmem]
  · rw [h.2]
    by_cases hu : v = u
    · subst hu
      simp [gInv, flushState, addListing, countFP_append, countFP, hns]
    · have hmem : (u ∈ v :: st.seen) ↔ (u ∈ st.seen) := by
        constructor
        · intro h1
          rcases List.mem_cons.mp h1 with h2 | h2
          · exact absurd h2.symm hu
          · exact h2
        · intro h1
          exact List.mem_cons_of_mem _ h1
      simp [gInv, flushState, addListing, countFP_append, countFP, hu, hmem]

/-! ### Batch invariant

Between any two appends the pending batch is strictly below the
configured size, every `insert_listings_batch` call issued inside the
loop carries exactly `B` records, and the accounting equation
`B · flushes + pending = discovered` holds.
-/

def BatchInv (B : Nat) (st : CrawlState) : Prop :=
  (∀ b, Ev.insertBatch b ∈ st.trace → b.length = B) ∧
  st.batch.length < B ∧
  B * flushCount st.trace + st.batch.length = st.allNew.length

theorem batchInv_logPage (B : Nat) (st : CrawlState) (vt mk : String) (p : Nat)
    (h : BatchInv B st) : BatchInv B (st.logPage vt mk p) := by
  obtain ⟨h1, h2, h3⟩ := h
  refine ⟨?_, h2, ?_⟩
  · intro b hb
    rcases List.mem_append.mp hb with hb | hb
    · exact h1 b hb
    · simp at hb
  · simpa [CrawlState.logPage, flushCount_append, flushCount] using h3

theorem batchInv_processLi (site : SiteData) (B : Nat) (mk vt : String)
    (st : CrawlState) (li : LiTag)
    (h : BatchInv B st) : BatchInv B (processLi site B mk vt st li).1 := by
  obtain ⟨h1, h2, h3⟩ := h
  rcases processLi_spec site B mk vt st li with h | ⟨v, hm, hne, hns, h | h⟩
  · rw [h]; exact ⟨h1, h2, h3⟩
  · rw [h.2]
    refine ⟨?_, ?_, ?_⟩
    · intro b hb
      rcases List.mem_append.mp hb with hb | hb
      · exact h1 b hb
      · simp at hb
    · have := h.1
      simp only [addListing]
      simp only [List.length_append, List.length_cons, List.length_nil]
      omega
    · simp only [addListing, countFP_append, flushCount_append, flushCount,
        List.length_append, List.length_cons, List.length_nil, Nat.add_zero,
        Nat.zero_add]
      omega
  · rw [h.2]
    have hlenB : st.batch.length + 1 = B := by
      have := h.1
      omega
    refine ⟨?_, ?_, ?_⟩
    · intro b hb
      simp only [flushState, addListing] at hb
      rcases List.mem_append.mp hb with hb | hb
      · rcases List.mem_append.mp hb with hb | hb
        · exact h1 b hb
        · simp at hb
      · simp at hb
        subst hb
        simpa using hlenB
    · simp only [flushState]
      simp only [List.length_nil]
      omega
    · simp only [flushState, addListing, flushCount_append, flushCount,
        List.length_append, List.length_cons, List.length_nil, Nat.add_zero,
        Nat.zero_add]
      have : B * (flushCount st.trace + 1) = B * flushCount st.trace + B := by
        ring
      omega

/-! ### Ledger monotonicity -/

theorem seen_processLi (site : SiteData) (B : Nat) (mk vt : String)
    (st : CrawlState) (li : LiTag) (x : String) (h : x ∈ st.seen) :
    x ∈ (processLi site B mk vt st li).1.seen := by
  rcases processLi_spec site B mk vt st li with hc | ⟨v, hm, hne, hns, hc | hc⟩
  · rw [hc]; exact h
  · rw [hc.2]; exact List.mem_cons_of_mem _ h
  · rw [hc.2]; exact List.mem_cons_of_mem _ h

/-! ### Skipped pages leave the state untouched -/

/-- The source's skip condition for one item: no `post_url`, a falsy
`post_url`, or a `post_url` already in the ledger. -/
def skipPred (seen : List String) (li : LiTag) : Prop :=
  match dictGet (extract_listing_details RIYASWANA_BASE_URL li) "post_url" with
  | none => True
  | some u => u = "" ∨ u ∈ seen

theorem processLi_of_skipPred (site : SiteData) (B : Nat) (mk vt : String)
    (st : CrawlState) (li : LiTag) (h : skipPred st.seen li) :
    processLi site B mk vt st li = (st, 0) := by
  unfold skipPred at h
  cases hm : dictGet (extract_listing_details RIYASWANA_BASE_URL li) "post_url" with
  | none => exact processLi_none site B mk vt st li hm
  | some u =>
      rw [hm] at h
      exact processLi_skip site B mk vt st li u hm h

theorem processItems_of_skipPred (site : SiteData) (B : Nat) (mk vt : String)
    (lis : List LiTag) (st : CrawlState) (n : Nat)
    (h : ∀ li ∈ lis, skipPred st.seen li) :
    processItems site B mk vt st n lis = (st, n) := by
  induction lis with
  | nil => rfl
  | cons li rest ih =>
      have h0 := processLi_of_skipPred site B mk vt st li (h li (List.mem_cons_self li rest))
      unfold processItems
      rw [h0]
      exact ih (fun li' hli' => h li' (List.mem_cons_of_mem _ hli'))

/-! ### Box-text classification lemmas -/

/-- The mileage test of the classification loop: `"km" in txt.lower()`. -/
def isKmB (t : String) : Bool :=
  pyIn "km" (strLower t)

/-- The price test of the classification loop: not a mileage block, and
`"rs" in txt.lower() or "negotiable" in txt.lower()`. -/
def isPriceB (t : String) : Bool :=
  !isKmB t && (pyIn "rs" (strLower t) || pyIn "negotiable" (strLower t))

/-- The last element of a list, with a fallback. -/
def lastOr (o : Option String) : List String → Option String
  | [] => o
  | x :: rest => lastOr (some x) rest

/-- A box text block that hits none of the mileage/price heuristics, is
non-empty after stripping, and differs from the date value: the loop
classifies it as location. -/
def plainBox (dateVal t : String) : Prop :=
  pyStrip t ≠ "" ∧ isKmB (pyStrip t) = false ∧
  pyIn "rs" (strLower (pyStrip t)) = false ∧
  pyIn "negotiable" (strLower (pyStrip t)) = false ∧
  pyStrip t ≠ dateVal

theorem boxLoop_get_mileage (ts : List String) : ∀ d : Dict,
    dictGet (boxLoop d ts) "mileage" =
      lastOr (dictGet d "mileage") ((ts.map pyStrip).filter isKmB) := by
  induction ts with
  | nil => intro d; rfl
  | cons raw rest ih =>
      intro d
      simp only [boxLoop, List.map_cons, List.filter_cons]
      by_cases hk : pyIn "km" (strLower (pyStrip raw)) = true
      · rw [if_pos hk]
        have hk' : isKmB (pyStrip raw) = true := hk
        rw [hk']
        rw [ih]
        rw [dictGet_insert_self]
        rfl
      · rw [if_neg hk]
        have hk' : isKmB (pyStrip raw) = false := by
          simpa using hk
        rw [hk']
        simp only [Bool.false_eq_true, if_false]
        by_cases hp : (pyIn "rs" (strLower (pyStrip raw)) ||
            pyIn "negotiable" (strLower (pyStrip raw))) = true
        · rw [if_pos hp, ih,
            dictGet_insert_ne _ _ _ _ (by decide : "overview_price" ≠ "mileage")]
        · rw [if_neg hp]
          by_cases hl : pyStrip raw ≠ "" ∧
              pyStrip raw ≠ (dictGet d "overview_price").getD "" ∧
              pyStrip raw ≠ (dictGet d "mileage").getD "" ∧
              pyStrip raw ≠ (dictGet d "date").getD ""
          · rw [if_pos hl, ih,
              dictGet_insert_ne _ _ _ _ (by decide : "location" ≠ "mileage")]
          · rw [if_neg hl, ih]

theorem boxLoop_get_price (ts : List String) : ∀ d : Dict,
    dictGet (boxLoop d ts) "overview_price" =
      lastOr (dictGet d "overview_price") ((ts.map pyStrip).filter isPriceB) := by
  induction ts with
  | nil => intro d; rfl
  | cons raw rest ih =>
      intro d
      simp only [boxLoop, List.map_cons, List.filter_cons]
      by_cases hk : pyIn "km" (strLower (pyStrip raw)) = true
      · rw [if_pos hk]
        have hk' : isPriceB (pyStrip raw) = false := by
          simp [isPriceB, isKmB, hk]
        rw [hk']
        simp only [Bool.false_eq_true, if_false]
        rw [ih, dictGet_insert_ne _ _ _ _ (by decide : "mileage" ≠ "overview_price")]
      · rw [if_neg hk]
        have hkf : isKmB (pyStrip raw) = false := by
          simpa using hk
        by_cases hp : (pyIn "rs" (strLower (pyStrip raw)) ||
            pyIn "negotiable" (strLower (pyStrip raw))) = true
        · rw [if_pos hp]
          have hp' : isPriceB (pyStrip raw) = true := by
            simp [isPriceB, hkf, hp]
          rw [hp', ih, dictGet_insert_self]
          rfl
        · rw [if_neg hp]
          have hp' : isPriceB (pyStrip raw) = false := by
            simp [isPriceB, hkf]
            simpa using hp
          rw [hp']
          simp only [Bool.false_eq_true, if_false]
          by_cases hl : pyStrip raw ≠ "" ∧
              pyStrip raw ≠ (dictGet d "overview_price").getD "" ∧
              pyStrip raw ≠ (dictGet d "mileage").getD "" ∧
              pyStrip raw ≠ (dictGet d "date").getD ""
          · rw [if_pos hl, ih,
              dictGet_insert_ne _ _ _ _ (by decide : "location" ≠ "overview_price")]
          · rw [if_neg hl, ih]

theorem boxLoop_get_location (ts : List String) : ∀ (d : Dict) (dateVal : String),
    dictGet d "date" = some dateVal →
    dictGet d "overview_price" = some "" →
    dictGet d "mileage" = some "" →
    (∀ t ∈ ts, plainBox dateVal t) →
    dictGet (boxLoop d ts) "location" =
      lastOr (dictGet d "location") (ts.map pyStrip) := by
  induction ts with
  | nil => intro d dateVal _ _ _ _; rfl
  | cons raw rest ih =>
      intro d dateVal hd hp hm hall
      obtain ⟨hb1, hb2, hb3, hb4, hb5⟩ := hall raw (List.mem_cons_self raw rest)
      simp only [boxLoop, List.map_cons]
      rw [if_neg (by rw [show isKmB (pyStrip raw) = pyIn "km" (strLower (pyStrip raw)) from rfl] at hb2; simp [hb2])]
      rw [if_neg (by simp [hb3, hb4])]
      rw [if_pos ⟨hb1, by rw [hp]; exact hb1, by rw [hm]; exact hb1, by rw [hd]; exact hb5⟩]
      rw [ih (dictInsert d "location" (pyStrip raw)) dateVal
        (by rw [dictGet_insert_ne _ _ _ _ (by decide : "location" ≠ "date")]; exact hd)
        (by rw [dictGet_insert_ne _ _ _ _ (by decide : "location" ≠ "overview_price")]; exact hp)
        (by rw [dictGet_insert_ne _ _ _ _ (by decide : "location" ≠ "mileage")]; exact hm)
        (fun t ht => hall t (List.mem_cons_of_mem _ ht))]
      rw [dictGet_insert_self]
      rfl

theorem boxLoop_get_other (ts : List String) : ∀ (d : Dict) (k : String),
    k ≠ "mileage" → k ≠ "overview_price" → k ≠ "location" →
    dictGet (boxLoop d ts) k = dictGet d k := by
  induction ts with
  | nil => intro d k _ _ _; rfl
  | cons raw rest ih =>
      intro d k h1 h2 h3
      simp only [boxLoop]
      by_cases hk : pyIn "km" (strLower (pyStrip raw)) = true
      · rw [if_pos hk, ih _ _ h1 h2 h3, dictGet_insert_ne _ _ _ _ (Ne.symm h1)]
      · rw [if_neg hk]
        by_cases hp : (pyIn "rs" (strLower (pyStrip raw)) ||
            pyIn "negotiable" (strLower (pyStrip raw))) = true
        · rw [if_pos hp, ih _ _ h1 h2 h3, dictGet_insert_ne _ _ _ _ (Ne.symm h2)]
        · rw [if_neg hp]
          by_cases hl : pyStrip raw ≠ "" ∧
              pyStrip raw ≠ (dictGet d "overview_price").getD "" ∧
              pyStrip raw ≠ (dictGet d "mileage").getD "" ∧
              pyStrip raw ≠ (dictGet d "date").getD ""
          · rw [if_pos hl, ih _ _ h1 h2 h3, dictGet_insert_ne _ _ _ _ (Ne.symm h3)]
          · rw [if_neg hl, ih _ _ h1 h2 h3]

theorem boxLoop_keys (ts : List String) : ∀ d : Dict,
    "mileage" ∈ dictKeys d → "overview_price" ∈ dictKeys d →
    "location" ∈ dictKeys d →
    dictKeys (boxLoop d ts) = dictKeys d := by
  induction ts with
  | nil => intro d _ _ _; rfl
  | cons raw rest ih =>
      intro d h1 h2 h3
      simp only [boxLoop]
      by_cases hk : pyIn "km" (strLower (pyStrip raw)) = true
      · rw [if_pos hk]
        have hkeys := dictKeys_insert_mem d "mileage" (pyStrip raw) h1
        rw [ih _ (by rw [hkeys]; exact h1) (by rw [hkeys]; exact h2)
          (by rw [hkeys]; exact h3), hkeys]
      · rw [if_neg hk]
        by_cases hp : (pyIn "rs" (strLower (pyStrip raw)) ||
            pyIn "negotiable" (strLower (pyStrip raw))) = true
        · rw [if_pos hp]
          have hkeys := dictKeys_insert_mem d "overview_price" (pyStrip raw) h2
          rw [ih _ (by rw [hkeys]; exact h1) (by rw [hkeys]; exact h2)
            (by rw [hkeys]; exact h3), hkeys]
        · rw [if_neg hp]
          by_cases hl : pyStrip raw ≠ "" ∧
              pyStrip raw ≠ (dictGet d "overview_price").getD "" ∧
              pyStrip raw ≠ (dictGet d "mileage").getD "" ∧
              pyStrip raw ≠ (dictGet d "date").getD ""
          · rw [if_pos hl]
            have hkeys := dictKeys_insert_mem d "location" (pyStrip raw) h3
            rw [ih _ (by rw [hkeys]; exact h1) (by rw [hkeys]; exact h2)
              (by rw [hkeys]; exact h3), hkeys]
          · rw [if_neg hl, ih _ h1 h2 h3]

/-- The overview extractor is the classification loop run on the dict of
the seven directly-assigned fields. -/
theorem extract_listing_details_eq (base : String) (li : LiTag) :
    extract_listing_details base li =
      boxLoop
        [("title", rawTitle li),
         ("post_url", safe_urljoin base (rawHref li)),
         ("image_url", safe_urljoin "https:" (rawSrc li)),
         ("date", rawDate li),
         ("location", ""), ("overview_price", ""), ("mileage", "")]
        li.boxTexts := rfl

/-- The overview record always carries exactly the seven overview keys, in
assignment order. -/
theorem extract_listing_keys (base : String) (li : LiTag) :
    dictKeys (extract_listing_details base li) = overviewKeys := by
  rw [extract_listing_details_eq]
  have h := boxLoop_keys li.boxTexts
    [("title", rawTitle li),
     ("post_url", safe_urljoin base (rawHref li)),
     ("image_url", safe_urljoin "https:" (rawSrc li)),
     ("date", rawDate li),
     ("location", ""), ("overview_price", ""), ("mileage", "")]
    (by show "mileage" ∈ ("title" :: "post_url" :: "image_url" :: "date" ::
          "location" :: "overview_price" :: "mileage" :: ([] : List String))
        decide)
    (by show "overview_price" ∈ ("title" :: "post_url" :: "image_url" :: "date" ::
          "location" :: "overview_price" :: "mileage" :: ([] : List String))
        decide)
    (by show "location" ∈ ("title" :: "post_url" :: "image_url" :: "date" ::
          "location" :: "overview_price" :: "mileage" :: ([] : List String))
        decide)
  rw [h]
  rfl

theorem urljoin_empty_url (base : String) : urljoin base "" = base := by
  by_cases h : base = ""
  · subst h; rfl
  · unfold urljoin
    rw [if_neg h, if_pos rfl]

/-! ## Claim theorems -/

/-- C10: if the startup enumeration of persisted keys fails with a storage
error, `get_all_post_urls` returns the empty set instead of propagating,
so the crawl proceeds with an empty ledger; on success, exactly the
non-NULL, non-empty persisted `post_url` values are seeded. -/
theorem C10_startup_enumeration :
    get_all_post_urls (Except.error ()) = [] ∧
    (∀ (rows : List (Option String)) (u : String),
      u ∈ get_all_post_urls (Except.ok rows) ↔ some u ∈ rows ∧ u ≠ "") ∧
    (∀ (site : SiteData) (B fuel : Nat) (makes types : List String),
      scrape_site site B fuel makes types (get_all_post_urls (Except.error ())) =
        scrape_site site B fuel makes types []) := by
  refine ⟨rfl, ?_, ?_⟩
  · intro rows u
    simp only [get_all_post_urls, List.mem_filterMap]
    constructor
    · rintro ⟨a, ha, hfa⟩
      cases a with
      | none => simp at hfa
      | some s =>
          dsimp only at hfa
          by_cases hs : s = ""
          · rw [if_pos hs] at hfa
            simp at hfa
          · rw [if_neg hs] at hfa
            have : s = u := by simpa using hfa
            subst this
            exact ⟨ha, hs⟩
    · rintro ⟨ha, hu⟩
      exact ⟨some u, ha, by simp [hu]⟩
  · intro site B fuel makes types
    rfl

/-- C3 counterexample: batch size 1, one new listing, and a storage-layer
failure on the insert call.  The whole call rolls back and reports zero
inserted — but the caller still clears its pending batch (it ends empty)
and issues no second insert call for the listing: the batch is treated as
consumed, contradicting the claim that the caller retains it. -/
theorem C3_counterexample :
    (let site : SiteData :=
      { listingPage := fun vt mk p =>
          if vt = "cars" ∧ mk = "volvo" ∧ p = 1 then
            Except.ok (some [⟨some ⟨"T", some "/u1"⟩, none, none, []⟩])
          else Except.ok none,
        postPage := fun _ => Except.ok [] }
     let r := scrape_site site 1 5 ["volvo"] ["cars"] []
     flushCount r.trace = 1 ∧ r.batch = [] ∧ r.allNew.length = 1 ∧
     insert_listings_batch [] true r.allNew = ([], 0)) := by
  decide

/-- C3 (amended): a storage-layer failure during `insert_listings_batch`
rolls back the whole call (no row becomes durable) and the call reports
zero inserted; the caller, however, does not retain the batch — it clears
the buffer regardless of the call's outcome, as `C3_counterexample`
exhibits. -/
theorem C3_storage_failure :
    ∀ (db : List DbRow) (l : List Dict),
      insert_listings_batch db true l = (db, 0) := by
  intro db l
  cases l with
  | nil => rfl
  | cons d rest => rfl

/-- C5 counterexample: on a fetch/parse failure `extract_post_details`
returns the empty mapping — the seven detail fields are absent, not
present with empty values as the claim requires for every input. -/
theorem C5_counterexample :
    extract_post_details (Except.error ()) = [] ∧
    dictGet (extract_post_details (Except.error ())) "engine_cc" = none := by
  exact ⟨rfl, rfl⟩

/-- C5 (amended): when the fetch succeeds, the returned mapping contains
all seven detail fields, each carrying the value of its (lower-cased)
label in the cell map, or the empty string when the label is missing; on
a fetch/parse failure the mapping is empty, with every field absent. -/
theorem C5_detail_fields :
    (∀ (cells : List String) (fl : String × String), fl ∈ detailFieldPairs →
      dictGet (extract_post_details (Except.ok cells)) fl.1 =
        some ((dictGet (cellsToMap [] cells) fl.2).getD "")) ∧
    extract_post_details (Except.error ()) = [] := by
  refine ⟨?_, rfl⟩
  intro cells fl hfl
  fin_cases hfl <;> rfl

theorem C5_witness :
    dictGet (extract_post_details (Except.ok ["Engine (CC)", "1500"])) "engine_cc" =
      some "1500" := by
  have h := C5_detail_fields.1 ["Engine (CC)", "1500"] ("engine_cc", "engine (cc)")
    (by decide)
  have h2 : some ((dictGet (cellsToMap [] ["Engine (CC)", "1500"]) "engine (cc)").getD "")
      = some "1500" := by decide
  exact h.trans h2

/-- C7 counterexample: in the claim's scenario (a fragment whose only
datum is a title anchor with href `//img.example.com/x`), `post_url` does
resolve to `https://img.example.com/x`, but `image_url` comes out as
`"https:"` — not the empty string the claim asserts for all other
fields. -/
theorem C7_counterexample :
    (let d := extract_listing_details RIYASWANA_BASE_URL
        ⟨some ⟨"", some "//img.example.com/x"⟩, none, none, []⟩
     dictGet d "post_url" = some "https://img.example.com/x" ∧
     dictGet d "image_url" = some "https:" ∧
     dictGet d "image_url" ≠ some "") := by
  decide

/-- C7 (amended): the title anchor's href resolves against the site base
URL (protocol-relative hrefs become `https`-absolute, and the scenario's
text fields are all present and empty), but the image src resolves
against the literal base `"https:"` — a protocol-relative src becomes
absolute, a missing src yields `image_url = "https:"`, and a
site-relative src does not resolve against the site host. -/
theorem C7_url_resolution :
    (let d := extract_listing_details RIYASWANA_BASE_URL
        ⟨some ⟨"", some "//img.example.com/x"⟩, none, none, []⟩
     dictGet d "post_url" = some "https://img.example.com/x" ∧
     dictGet d "title" = some "" ∧ dictGet d "date" = some "" ∧
     dictGet d "location" = some "" ∧ dictGet d "overview_price" = some "" ∧
     dictGet d "mileage" = some "" ∧ dictGet d "image_url" = some "https:") ∧
    dictGet (extract_listing_details RIYASWANA_BASE_URL
        ⟨none, some ⟨some "//cdn.example.com/i.jpg"⟩, none, []⟩) "image_url" =
      some "https://cdn.example.com/i.jpg" ∧
    dictGet (extract_listing_details RIYASWANA_BASE_URL
        ⟨none, some ⟨some "img/y.jpg"⟩, none, []⟩) "image_url" =
      some "https:///img/y.jpg" ∧
    dictGet (extract_listing_details RIYASWANA_BASE_URL
        ⟨some ⟨"Car", some "/vehicle/details/u1"⟩, none, none, []⟩) "post_url" =
      some "https://riyasewana.com/vehicle/details/u1" := by
  decide

instance (dateVal t : String) : Decidable (plainBox dateVal t) := by
  unfold plainBox
  infer_instance

/-- C6 counterexample: two unclassified blocks `"Colombo"` then `"Kandy"`
in document order — the extractor reports the **later** one as the
location, refuting "first unclassified block wins". -/
theorem C6_counterexample :
    dictGet (extract_listing_details RIYASWANA_BASE_URL
        ⟨none, none, none, ["Colombo", "Kandy"]⟩) "location" = some "Kandy" ∧
    dictGet (extract_listing_details RIYASWANA_BASE_URL
        ⟨none, none, none, ["Colombo", "Kandy"]⟩) "location" ≠ some "Colombo" := by
  decide

/-- C6 (amended): a block containing case-insensitive "km" is mileage and
a remaining block containing "rs" or "negotiable" is price — in each case
the **last** such block in document order wins, since each assignment
overwrites the field; likewise, among blocks that hit no heuristic, are
non-empty, and differ from the already-classified values, the **last**
block in document order becomes the location (later unclassified blocks
replace earlier ones). -/
theorem C6_box_heuristics (base : String) (li : LiTag) :
    dictGet (extract_listing_details base li) "mileage" =
      lastOr (some "") ((li.boxTexts.map pyStrip).filter isKmB) ∧
    dictGet (extract_listing_details base li) "overview_price" =
      lastOr (some "") ((li.boxTexts.map pyStrip).filter isPriceB) ∧
    ((∀ t ∈ li.boxTexts, plainBox (rawDate li) t) →
      dictGet (extract_listing_details base li) "location" =
        lastOr (some "") (li.boxTexts.map pyStrip)) := by
  refine ⟨?_, ?_, ?_⟩
  · rw [extract_listing_details_eq, boxLoop_get_mileage]
    rfl
  · rw [extract_listing_details_eq, boxLoop_get_price]
    rfl
  · intro hall
    rw [extract_listing_details_eq,
      boxLoop_get_location li.boxTexts
        [("title", rawTitle li),
         ("post_url", safe_urljoin base (rawHref li)),
         ("image_url", safe_urljoin "https:" (rawSrc li)),
         ("date", rawDate li),
         ("location", ""), ("overview_price", ""), ("mileage", "")]
        (rawDate li) rfl rfl rfl hall]
    rfl

theorem C6_witness :
    (∀ t ∈ ["Colombo", "Kandy"], plainBox
      (rawDate (⟨none, none, none, ["Colombo", "Kandy"]⟩ : LiTag)) t) ∧
    dictGet (extract_listing_details RIYASWANA_BASE_URL
        ⟨none, none, none, ["Colombo", "Kandy"]⟩) "location" = some "Kandy" := by
  refine ⟨by decide, ?_⟩
  have h := (C6_box_heuristics RIYASWANA_BASE_URL
      ⟨none, none, none, ["Colombo", "Kandy"]⟩).2.2 (by decide)
  exact h.trans (by decide)

/-- C9 counterexample: for a fragment with no anchor at all, `post_url`
degrades to the base URL itself (`urljoin(base, "")` returns the base)
and `image_url` degrades to `"https:"` — neither is the empty string the
claim asserts for every failed element. -/
theorem C9_counterexample :
    dictGet (extract_listing_details RIYASWANA_BASE_URL
        ⟨none, none, none, []⟩) "post_url" = some "https://riyasewana.com" ∧
    dictGet (extract_listing_details RIYASWANA_BASE_URL
        ⟨none, none, none, []⟩) "post_url" ≠ some "" ∧
    dictGet (extract_listing_details RIYASWANA_BASE_URL
        ⟨none, none, none, []⟩) "image_url" = some "https:" := by
  decide

/-- C9 (amended): `extract_listing_details` is total (the guarded element
accesses cannot raise) and always returns a record with exactly the seven
overview keys; a missing title anchor, date div or box list degrades the
text fields (title, date, location, overview_price, mileage) to the empty
string, but a missing anchor or href degrades `post_url` to the base URL
itself, and a missing image (or empty src) degrades `image_url` to
`"https:"`. -/
theorem C9_overview_degradation (base : String) (li : LiTag) :
    dictKeys (extract_listing_details base li) = overviewKeys ∧
    (li.anchor = none → dictGet (extract_listing_details base li) "title" = some "") ∧
    (rawHref li = "" → dictGet (extract_listing_details base li) "post_url" = some base) ∧
    (rawSrc li = "" → dictGet (extract_listing_details base li) "image_url" = some "https:") ∧
    (li.dateDiv = none → dictGet (extract_listing_details base li) "date" = some "") ∧
    (li.boxTexts = [] →
      dictGet (extract_listing_details base li) "location" = some "" ∧
      dictGet (extract_listing_details base li) "overview_price" = some "" ∧
      dictGet (extract_listing_details base li) "mileage" = some "") := by
  refine ⟨extract_listing_keys base li, ?_, ?_, ?_, ?_, ?_⟩
  · intro h
    rw [extract_listing_details_eq,
      boxLoop_get_other _ _ _ (by decide) (by decide) (by decide)]
    simp [dictGet, rawTitle, h]
  · intro h
    rw [extract_listing_details_eq,
      boxLoop_get_other _ _ _ (by decide) (by decide) (by decide)]
    have : dictGet
        [("title", rawTitle li),
         ("post_url", safe_urljoin base (rawHref li)),
         ("image_url", safe_urljoin "https:" (rawSrc li)),
         ("date", rawDate li),
         ("location", ""), ("overview_price", ""), ("mileage", "")] "post_url" =
        some (safe_urljoin base (rawHref li)) := by
      rfl
    rw [this, h]
    rw [show safe_urljoin base "" = urljoin base "" from rfl, urljoin_empty_url]
  · intro h
    rw [extract_listing_details_eq,
      boxLoop_get_other _ _ _ (by decide) (by decide) (by decide)]
    have : dictGet
        [("title", rawTitle li),
         ("post_url", safe_urljoin base (rawHref li)),
         ("image_url", safe_urljoin "https:" (rawSrc li)),
         ("date", rawDate li),
         ("location", ""), ("overview_price", ""), ("mileage", "")] "image_url" =
        some (safe_urljoin "https:" (rawSrc li)) := by
      rfl
    rw [this, h]
    rfl
  · intro h
    rw [extract_listing_details_eq,
      boxLoop_get_other _ _ _ (by decide) (by decide) (by decide)]
    simp [dictGet, rawDate, h]
  · intro h
    rw [extract_listing_details_eq, h]
    exact ⟨rfl, rfl, rfl⟩

theorem C9_witness :
    dictKeys (extract_listing_details RIYASWANA_BASE_URL
      ⟨none, none, none, []⟩) = overviewKeys ∧
    dictGet (extract_listing_details RIYASWANA_BASE_URL
      ⟨none, none, none, []⟩) "title" = some "" ∧
    dictGet (extract_listing_details RIYASWANA_BASE_URL
      ⟨none, none, none, []⟩) "post_url" = some RIYASWANA_BASE_URL ∧
    dictGet (extract_listing_details RIYASWANA_BASE_URL
      ⟨none, none, none, []⟩) "image_url" = some "https:" ∧
    dictGet (extract_listing_details RIYASWANA_BASE_URL
      ⟨none, none, none, []⟩) "date" = some "" ∧
    dictGet (extract_listing_details RIYASWANA_BASE_URL
      ⟨none, none, none, []⟩) "location" = some "" := by
  have h := C9_overview_degradation RIYASWANA_BASE_URL ⟨none, none, none, []⟩
  exact ⟨h.1, h.2.1 rfl, h.2.2.1 rfl, h.2.2.2.1 rfl, h.2.2.2.2.1 rfl,
    (h.2.2.2.2.2 rfl).1⟩

/-- C4 counterexample: page 1 carries two new listings; the detail fetch
for the first fails.  The second listing is still processed and the first
is recorded and marked seen — but its detail field `yom` is absent from
the record (`none`), not present with the empty-string value the claim
asserts. -/
theorem C4_counterexample :
    (let site : SiteData :=
      { listingPage := fun vt mk p =>
          if vt = "cars" ∧ mk = "volvo" ∧ p = 1 then
            Except.ok (some [⟨some ⟨"A", some "/u1"⟩, none, none, []⟩,
                             ⟨some ⟨"B", some "/u2"⟩, none, none, []⟩])
          else Except.ok none,
        postPage := fun url =>
          if url = "https://riyasewana.com/u1" then Except.error ()
          else Except.ok ["YOM", "2012"] }
     let r := scrape_site site 50 5 ["volvo"] ["cars"] []
     r.allNew.length = 2 ∧
     r.allNew.map (fun d => dictGet d "post_url") =
       [some "https://riyasewana.com/u1", some "https://riyasewana.com/u2"] ∧
     r.allNew.map (fun d => dictGet d "yom") = [none, some "2012"] ∧
     "https://riyasewana.com/u1" ∈ r.seen) := by
  decide

/-- C4 (amended): a detail-fetch/extraction failure for a new listing
still counts it, marks it seen (it is not retried), records it in the
result — with its seven detail fields **absent** from the record rather
than present as empty strings (they are defaulted to `""` only at
persistence time) — and the item loop continues with the remaining
listings; the pair's pagination is not aborted. -/
theorem C4_detail_failure_isolation (site : SiteData) (B : Nat)
    (mk vt : String) (st : CrawlState) (li : LiTag) (u : String) (n : Nat)
    (rest : List LiTag)
    (hm : dictGet (extract_listing_details RIYASWANA_BASE_URL li) "post_url" = some u)
    (hne : u ≠ "") (hns : u ∉ st.seen)
    (hfail : site.postPage u = Except.error ()) :
    (processLi site B mk vt st li).2 = 1 ∧
    u ∈ (processLi site B mk vt st li).1.seen ∧
    (processLi site B mk vt st li).1.allNew =
      st.allNew ++ [mkFull site mk vt (extract_listing_details RIYASWANA_BASE_URL li) u] ∧
    (∀ k ∈ detailFieldNames,
      dictGet (mkFull site mk vt (extract_listing_details RIYASWANA_BASE_URL li) u) k = none) ∧
    dictGet (mkFull site mk vt (extract_listing_details RIYASWANA_BASE_URL li) u) "post_url" =
      some u ∧
    processItems site B mk vt st n (li :: rest) =
      processItems site B mk vt (processLi site B mk vt st li).1 (n + 1) rest := by
  have hrun := processLi_new site B mk vt st li u hm hne hns
  have hfull : mkFull site mk vt (extract_listing_details RIYASWANA_BASE_URL li) u =
      dictInsert (dictInsert (extract_listing_details RIYASWANA_BASE_URL li) "make" mk)
        "type" vt := by
    unfold mkFull
    rw [hfail]
    rfl
  have h2 : (processLi site B mk vt st li).2 = 1 := by
    rw [hrun]
    by_cases hb : B ≤ st.batch.length + 1
    · rw [if_pos hb]
    · rw [if_neg hb]
  have hseen : (processLi site B mk vt st li).1.seen = u :: st.seen := by
    rw [hrun]
    by_cases hb : B ≤ st.batch.length + 1
    · rw [if_pos hb]; rfl
    · rw [if_neg hb]; rfl
  have hnew : (processLi site B mk vt st li).1.allNew =
      st.allNew ++ [mkFull site mk vt (extract_listing_details RIYASWANA_BASE_URL li) u] := by
    rw [hrun]
    by_cases hb : B ≤ st.batch.length + 1
    · rw [if_pos hb]; rfl
    · rw [if_neg hb]; rfl
  refine ⟨h2, ?_, hnew, ?_, ?_, ?_⟩
  · rw [hseen]
    exact List.mem_cons_self u st.seen
  · intro k hk
    fin_cases hk <;>
      rw [hfull, dictGet_insert_ne _ _ _ _ (by decide),
        dictGet_insert_ne _ _ _ _ (by decide),
        dictGet_eq_none_of_not_mem _ _ (by rw [extract_listing_keys]; decide)]
  · rw [hfull, dictGet_insert_ne _ _ _ _ (by decide),
      dictGet_insert_ne _ _ _ _ (by decide), hm]
  · show processItems site B mk vt
        (processLi site B mk vt st li).1 (n + (processLi site B mk vt st li).2) rest =
      processItems site B mk vt (processLi site B mk vt st li).1 (n + 1) rest
    rw [h2]

theorem C4_witness :
    "https://riyasewana.com/u1" ∈
      (processLi ⟨fun _ _ _ => Except.ok none, fun _ => Except.error ()⟩ 50 "toyota"
        "cars" (initState []) ⟨some ⟨"T", some "/u1"⟩, none, none, []⟩).1.seen ∧
    dictGet (mkFull ⟨fun _ _ _ => Except.ok none, fun _ => Except.error ()⟩ "toyota"
        "cars" (extract_listing_details RIYASWANA_BASE_URL
          ⟨some ⟨"T", some "/u1"⟩, none, none, []⟩)
        "https://riyasewana.com/u1") "engine_cc" = none := by
  have h := C4_detail_failure_isolation
    ⟨fun _ _ _ => Except.ok none, fun _ => Except.error ()⟩ 50 "toyota" "cars"
    (initState []) ⟨some ⟨"T", some "/u1"⟩, none, none, []⟩
    "https://riyasewana.com/u1" 0 [] (by decide) (by decide) (by decide) rfl
  exact ⟨h.2.1, h.2.2.2.1 "engine_cc" (by decide)⟩

/-- C1 counterexample: the seeded ledger already contains the only listing
of page 1, so page 1 yields zero new unique listings — yet the crawl still
fetches page 2 for the pair, because the zero-new termination check only
fires for `page > 1`. -/
theorem C1_counterexample :
    (let site : SiteData :=
      { listingPage := fun vt mk p =>
          if vt = "cars" ∧ mk = "volvo" ∧ p = 1 then
            Except.ok (some [⟨some ⟨"T", some "/u1"⟩, none, none, []⟩])
          else Except.ok none,
        postPage := fun _ => Except.ok [] }
     let r := scrape_site site 50 5 ["volvo"] ["cars"] ["https://riyasewana.com/u1"]
     r.allNew = [] ∧ Ev.fetchPage "cars" "volvo" 1 ∈ r.trace ∧
     Ev.fetchPage "cars" "volvo" 2 ∈ r.trace) := by
  decide

/-- C1 (amended): on every page `p ≥ 2` (and on any page whose item list
is empty), a successfully fetched page all of whose items are skipped —
`post_url` missing, empty or already in the ledger — terminates the
pair's pagination at `p` without error: the loop's final state is the
page-`p` fetch log, and page `p + 1` is never fetched, for every fuel
bound.  On page 1 with a non-empty item list the loop instead proceeds to
page 2, as `C1_counterexample` shows. -/
theorem C1_pagination_stop (site : SiteData) (B : Nat) (mk vt : String)
    (p fuel : Nat) (st : CrawlState) (lis : List LiTag)
    (hp : 2 ≤ p ∨ lis = [])
    (hfetch : site.listingPage vt mk p = Except.ok (some lis))
    (hall : ∀ li ∈ lis, skipPred st.seen li)
    (hnot : Ev.fetchPage vt mk (p + 1) ∉ st.trace) :
    pagesFrom site B mk vt (fuel + 1) p st = st.logPage vt mk p ∧
    Ev.fetchPage vt mk (p + 1) ∉ (pagesFrom site B mk vt (fuel + 1) p st).trace := by
  have hmain : pagesFrom site B mk vt (fuel + 1) p st = st.logPage vt mk p := by
    unfold pagesFrom
    rw [hfetch]
    cases lis with
    | nil => rfl
    | cons li rest =>
        dsimp only
        have hskip := processItems_of_skipPred site B mk vt (li :: rest)
          (st.logPage vt mk p) 0 (fun li' hli' => hall li' hli')
        rw [hskip]
        rcases hp with hp | hp
        · rw [if_pos ⟨rfl, hp⟩]
        · exact absurd hp (by simp)
  refine ⟨hmain, ?_⟩
  rw [hmain]
  intro hmem
  have hmem' : Ev.fetchPage vt mk (p + 1) ∈ st.trace ++ [Ev.fetchPage vt mk p] := hmem
  rcases List.mem_append.mp hmem' with h | h
  · exact hnot h
  · simp only [List.mem_singleton] at h
    have := (Ev.fetchPage.injEq _ _ _ _ _ _).mp h
    omega

theorem C1_witness :
    Ev.fetchPage "cars" "volvo" 3 ∉
      (pagesFrom ⟨fun _ _ _ => Except.ok (some []), fun _ => Except.ok []⟩ 50 "volvo"
        "cars" (3 + 1) 2 (initState [])).trace := by
  have h := C1_pagination_stop
    ⟨fun _ _ _ => Except.ok (some []), fun _ => Except.ok []⟩
    50 "volvo" "cars" 2 3 (initState []) [] (Or.inl (by decide)) rfl
    (fun li hli => absurd hli (by simp)) (by simp [initState])
  exact h.2

/-- Ceiling division, written the way the claim counts insert calls. -/
theorem ceil_div_eq (M B : Nat) (hB : 1 ≤ B) :
    M / B + (if M % B = 0 then 0 else 1) = (M + B - 1) / B := by
  have hB' : 0 < B := hB
  by_cases h : M % B = 0
  · rw [if_pos h]
    have hmod := Nat.div_add_mod M B
    have h1 : M + B - 1 = B * (M / B) + (B - 1) := by omega
    have h2 : (B - 1) / B = 0 := Nat.div_eq_of_lt (by omega)
    rw [h1, Nat.mul_add_div hB', h2]
  · rw [if_neg h]
    have hmod := Nat.div_add_mod M B
    have hlt : M % B < B := Nat.mod_lt _ hB'
    have h1 : M + B - 1 = B * (M / B + 1) + (M % B - 1) := by
      rw [Nat.mul_add, Nat.mul_one]
      omega
    have h2 : (M % B - 1) / B = 0 := Nat.div_eq_of_lt (by omega)
    rw [h1, Nat.mul_add_div hB', h2]

/-- A single-pair run of `scrape_site` is the pair's pagination loop
followed by the final partial-batch flush. -/
theorem scrape_site_single (site : SiteData) (B fuel : Nat) (mk vt : String)
    (seen0 : List String) :
    scrape_site site B fuel [mk] [vt] seen0 =
      (if (scrapePair site B fuel mk vt (initState seen0)).batch.isEmpty
       then scrapePair site B fuel mk vt (initState seen0)
       else { scrapePair site B fuel mk vt (initState seen0) with
              trace := (scrapePair site B fuel mk vt (initState seen0)).trace ++
                [Ev.insertBatch (scrapePair site B fuel mk vt (initState seen0)).batch] }) :=
  rfl

/-- C2: every `insert_listings_batch` call issued inside the crawl loop
carries exactly `B` listings and the pending batch always stays below `B`
(for any run); for a single-pair run with `M` newly discovered listings,
the in-loop flush count is `M / B`, the remaining batch has `M % B`
listings, the run ends with one final flush of that remainder exactly
when it is non-empty, and the total number of insert calls is `⌈M/B⌉`. -/
theorem C2_batch_flush (site : SiteData) (B fuel : Nat) (mk vt : String)
    (makes types : List String) (seen0 : List String) (hB : 1 ≤ B) :
    (∀ b, Ev.insertBatch b ∈ (crawlLoop site B fuel makes types (initState seen0)).trace →
      b.length = B) ∧
    (crawlLoop site B fuel makes types (initState seen0)).batch.length < B ∧
    flushCount (scrapePair site B fuel mk vt (initState seen0)).trace =
      (scrapePair site B fuel mk vt (initState seen0)).allNew.length / B ∧
    (scrapePair site B fuel mk vt (initState seen0)).batch.length =
      (scrapePair site B fuel mk vt (initState seen0)).allNew.length % B ∧
    (scrape_site site B fuel [mk] [vt] seen0).trace =
      (scrapePair site B fuel mk vt (initState seen0)).trace ++
        (if (scrapePair site B fuel mk vt (initState seen0)).batch.isEmpty then []
         else [Ev.insertBatch (scrapePair site B fuel mk vt (initState seen0)).batch]) ∧
    flushCount (scrape_site site B fuel [mk] [vt] seen0).trace =
      ((scrapePair site B fuel mk vt (initState seen0)).allNew.length + B - 1) / B := by
  have hInit : BatchInv B (initState seen0) := by
    refine ⟨?_, by simpa using hB, by simp [initState, flushCount]⟩
    intro b hb
    simp [initState] at hb
  have hPres : ∀ (mk' vt' : String) (st : CrawlState), BatchInv B st →
      BatchInv B (scrapePair site B fuel mk' vt' st) := by
    intro mk' vt' st h
    exact pagesFrom_preserve (BatchInv B) site B mk' vt'
      (fun st li h => batchInv_processLi site B mk' vt' st li h)
      (fun st p h => batchInv_logPage B st vt' mk' p h) fuel 1 st h
  have hLoop : BatchInv B (crawlLoop site B fuel makes types (initState seen0)) :=
    crawlLoop_preserve (BatchInv B) site B fuel hPres makes types _ hInit
  have hPair : BatchInv B (scrapePair site B fuel mk vt (initState seen0)) :=
    hPres mk vt _ hInit
  obtain ⟨hL1, hL2, _⟩ := hLoop
  obtain ⟨hP1, hP2, hP3⟩ := hPair
  have hdiv : flushCount (scrapePair site B fuel mk vt (initState seen0)).trace =
      (scrapePair site B fuel mk vt (initState seen0)).allNew.length / B := by
    rw [← hP3, Nat.mul_add_div hB]
    rw [Nat.div_eq_of_lt hP2]
    omega
  have hmod : (scrapePair site B fuel mk vt (initState seen0)).batch.length =
      (scrapePair site B fuel mk vt (initState seen0)).allNew.length % B := by
    rw [← hP3, Nat.mul_add_mod, Nat.mod_eq_of_lt hP2]
  have htr : (scrape_site site B fuel [mk] [vt] seen0).trace =
      (scrapePair site B fuel mk vt (initState seen0)).trace ++
        (if (scrapePair site B fuel mk vt (initState seen0)).batch.isEmpty then []
         else [Ev.insertBatch (scrapePair site B fuel mk vt (initState seen0)).batch]) := by
    rw [scrape_site_single]
    by_cases hb : (scrapePair site B fuel mk vt (initState seen0)).batch.isEmpty
    · rw [if_pos hb, if_pos hb]
      simp
    · rw [if_neg hb, if_neg hb]
  refine ⟨hL1, hL2, hdiv, hmod, htr, ?_⟩
  rw [htr, flushCount_append, ← ceil_div_eq _ B hB, hdiv]
  by_cases hb : (scrapePair site B fuel mk vt (initState seen0)).batch.isEmpty
  · have hb0 : (scrapePair site B fuel mk vt (initState seen0)).batch.length = 0 := by
      cases hE : (scrapePair site B fuel mk vt (initState seen0)).batch with
      | nil => rfl
      | cons a l => rw [hE] at hb; simp at hb
    rw [if_pos hb,
      if_pos (show (scrapePair site B fuel mk vt (initState seen0)).allNew.length % B = 0 by
        omega)]
    simp [flushCount]
  · have hb0 : (scrapePair site B fuel mk vt (initState seen0)).batch.length ≠ 0 := by
      cases hE : (scrapePair site B fuel mk vt (initState seen0)).batch with
      | nil => rw [hE] at hb; simp at hb
      | cons a l => simp
    rw [if_neg hb,
      if_neg (show ¬(scrapePair site B fuel mk vt (initState seen0)).allNew.length % B = 0 by
        omega)]
    simp [flushCount]

/-- The site of the specification's batch-boundary scenario: page 1 of the
pair carries three fresh listings, later pages are empty. -/
def c2Site : SiteData :=
  { listingPage := fun vt mk p =>
      if vt = "cars" ∧ mk = "volvo" ∧ p = 1 then
        Except.ok (some [⟨some ⟨"A", some "/u1"⟩, none, none, []⟩,
                         ⟨some ⟨"B", some "/u2"⟩, none, none, []⟩,
                         ⟨some ⟨"C", some "/u3"⟩, none, none, []⟩])
      else Except.ok none,
    postPage := fun _ => Except.ok [] }

theorem C2_witness :
    (1 : Nat) ≤ 2 ∧
    flushCount (scrape_site c2Site 2 5 ["volvo"] ["cars"] []).trace =
      ((scrapePair c2Site 2 5 "volvo" "cars" (initState [])).allNew.length + 2 - 1) / 2 := by
  refine ⟨by decide, ?_⟩
  exact (C2_batch_flush c2Site 2 5 "volvo" "cars" ["volvo"] ["cars"] [] (by decide)).2.2.2.2.2

/-- C8: the dedup ledger grows monotonically — the final seen set contains
every seeded URL and no URL is ever removed; a seeded URL is never
detail-fetched during the run, and no URL is detail-fetched more than
once within a run even if it reappears on a later page. -/
theorem C8_ledger_monotone (site : SiteData) (B fuel : Nat)
    (makes types : List String) (seen0 : List String) :
    (∀ u ∈ seen0, u ∈ (scrape_site site B fuel makes types seen0).seen) ∧
    (∀ u ∈ seen0, countFP u (scrape_site site B fuel makes types seen0).trace = 0) ∧
    (∀ u, countFP u (scrape_site site B fuel makes types seen0).trace ≤ 1) := by
  have hseen_eq : (scrape_site site B fuel makes types seen0).seen =
      (crawlLoop site B fuel makes types (initState seen0)).seen := by
    unfold scrape_site
    by_cases hb : (crawlLoop site B fuel makes types (initState seen0)).batch.isEmpty
    · rw [if_pos hb]
    · rw [if_neg hb]
  have hcount_eq : ∀ u, countFP u (scrape_site site B fuel makes types seen0).trace =
      countFP u (crawlLoop site B fuel makes types (initState seen0)).trace := by
    intro u
    unfold scrape_site
    by_cases hb : (crawlLoop site B fuel makes types (initState seen0)).batch.isEmpty
    · rw [if_pos hb]
    · rw [if_neg hb]
      show countFP u ((crawlLoop site B fuel makes types (initState seen0)).trace ++
        [Ev.insertBatch (crawlLoop site B fuel makes types (initState seen0)).batch]) = _
      rw [countFP_append]
      simp [countFP]
  have hmono : ∀ u ∈ seen0, u ∈ (crawlLoop site B fuel makes types (initState seen0)).seen := by
    intro u hu
    exact crawlLoop_preserve (fun st => u ∈ st.seen) site B fuel
      (fun mk' vt' st h => pagesFrom_preserve (fun st => u ∈ st.seen) site B mk' vt'
        (fun st li h => seen_processLi site B mk' vt' st li u h)
        (fun st p h => h) fuel 1 st h) makes types _ hu
  have hg : ∀ u, gInv u (crawlLoop site B fuel makes types (initState seen0)) =
      gInv u (initState seen0) := by
    intro u
    exact crawlLoop_preserve (fun st => gInv u st = gInv u (initState seen0)) site B fuel
      (fun mk' vt' st h => pagesFrom_preserve _ site B mk' vt'
        (fun st li h => (gInv_processLi site B mk' vt' st li u).trans h)
        (fun st p h => (gInv_logPage u st vt' mk' p).trans h) fuel 1 st h)
      makes types _ rfl
  refine ⟨?_, ?_, ?_⟩
  · intro u hu
    rw [hseen_eq]
    exact hmono u hu
  · intro u hu
    rw [hcount_eq u]
    have h1 := hg u
    have h2 : gInv u (initState seen0) = 0 := by
      simp [gInv, initState, countFP, hu]
    have h3 : countFP u (crawlLoop site B fuel makes types (initState seen0)).trace ≤
        gInv u (crawlLoop site B fuel makes types (initState seen0)) :=
      Nat.le_add_right _ _
    omega
  · intro u
    rw [hcount_eq u]
    have h1 := hg u
    have h2 : gInv u (initState seen0) ≤ 1 := by
      simp only [gInv, initState]
      split
      · simp [countFP]
      · simp [countFP]
    have h3 : countFP u (crawlLoop site B fuel makes types (initState seen0)).trace ≤
        gInv u (crawlLoop site B fuel makes types (initState seen0)) :=
      Nat.le_add_right _ _
    omega

theorem C8_witness :
    "u0" ∈ (scrape_site ⟨fun _ _ _ => Except.ok none, fun _ => Except.ok []⟩ 50 5
      ["volvo"] ["cars"] ["u0"]).seen ∧
    countFP "u0" (scrape_site ⟨fun _ _ _ => Except.ok none, fun _ => Except.ok []⟩ 50 5
      ["volvo"] ["cars"] ["u0"]).trace = 0 := by
  have h := C8_ledger_monotone ⟨fun _ _ _ => Except.ok none, fun _ => Except.ok []⟩
    50 5 ["volvo"] ["cars"] ["u0"]
  exact ⟨h.1 "u0" (by decide), h.2.1 "u0" (by decide)⟩

end VehicleScraper



